import Mathlib

/-!
Shallow embedding of the `test-tracker` HTTP service (`src/server.ts`).

The service is a Fastify application backed by a Prisma/SQLite database with
two tables (`Test`, `File`, see the migrations) and a filesystem artifact
store rooted at `upload_path`.  We embed:

* the data model (`Test`, `FileRow`) following the final migrated schema
  (`Test(id, name unique, createdAt default now, startedAt?, finishedAt?,
  parameters)`, `File(id, uid unique, originalName, path, size default 0,
  testId)`);
* a POSIX path model (`basename`, `joinPath`) mirroring Node's
  `path.basename` / `path.join` (join concatenates and normalizes `.`,
  `..` and empty segments);
* a filesystem model (`Disk`) with directories and regular files, where
  `fs.createWriteStream`+`pipeline` fails on a directory target (EISDIR)
  or a missing parent directory, and `fs.mkdirSync {recursive:true}`
  creates all ancestors and fails if a regular file occupies a component;
* the Prisma row operations used by the handlers (`create`, `update` by
  unique name with an extra filter, `findUnique`), with the thrown error
  kinds (`P2002` unique violation, `P2025` record not found, and the
  runtime validation error raised when a `String` is supplied for the
  `Int` column `id`);
* every route handler, combined into one step function `handle`.

Timestamps are modelled as `Nat` (`env.now` stands for `new Date()`), the
generated `uid` default for a new `File` row is supplied by the
environment (`env.uid`), and the outbound GitHub workflow dispatch is an
external call whose success is an environment bit (`env.externalOk`).
-/

namespace TT

/-- Prisma error kinds surfaced by the operations used in the server:
`P2002` (unique-constraint violation, thrown by `create` on a duplicate
name), `P2025` (record to update not found, thrown by `update` when the
unique `where` matches no row), and the client-side validation error thrown
when a value of the wrong type (a `String` for the `Int` column `id`) is
put in a `where` clause. -/
inductive PrismaErr where
  | recordNotFound
  | uniqueViolation
  | validationErr
  deriving DecidableEq

/-- A row of the `Test` table (final migrated schema):
`id INTEGER PK AUTOINCREMENT`, `name TEXT UNIQUE`, `createdAt DATETIME
DEFAULT CURRENT_TIMESTAMP`, `startedAt DATETIME NULL`, `finishedAt DATETIME
NULL`, `parameters TEXT`. -/
structure Test where
  id : Nat
  name : String
  createdAt : Nat
  startedAt : Option Nat
  finishedAt : Option Nat
  parameters : String
  deriving DecidableEq

/-- A row of the `File` table (final migrated schema):
`id INTEGER PK AUTOINCREMENT`, `uid TEXT UNIQUE`, `originalName TEXT`,
`path TEXT`, `size INTEGER DEFAULT 0`, `testId INTEGER REFERENCES Test`. -/
structure FileRow where
  id : Nat
  uid : String
  originalName : String
  path : String
  size : Nat
  testId : Nat
  deriving DecidableEq

/-! ## POSIX path model (Node `path.posix`)

Paths are strings.  `splitOnChar '/'` splits into segments,
`normSegs` performs Node's `normalizeString` resolution of `.`, `..` and
empty segments, and `renderPath` prints a resolved segment list back.
`joinPath a b` is Node's `path.join(a, b)`: concatenate with a `/` and
normalize.  `basename` is Node's `path.basename`: drop trailing slashes,
then take the part after the last remaining slash. -/

/-- Split a character list at every occurrence of `c`; always returns a
nonempty list of (possibly empty) segments, like `String.splitOn`. -/
def splitOnChar (c : Char) : List Char → List (List Char)
  | [] => [[]]
  | x :: xs =>
    match splitOnChar c xs with
    | [] => [[x]]
    | y :: ys => if x = c then [] :: y :: ys else (x :: y) :: ys

/-- The `/`-separated segments of a path string. -/
def pathSegs (s : String) : List String :=
  (splitOnChar '/' s.data).map String.mk

/-- Whether a path string is absolute (starts with `/`). -/
def isAbsPath (s : String) : Bool :=
  match s.data with
  | [] => false
  | c :: _ => c = '/'

/-- One step of Node's path normalization over a reversed accumulator of
resolved segments: empty and `.` segments are skipped, `..` pops the last
resolved segment (or is kept/dropped at the root depending on whether the
path is absolute), and any other segment is pushed. -/
def normStep (abs : Bool) (acc : List String) (seg : String) : List String :=
  if seg = "" ∨ seg = "." then acc
  else if seg = ".." then
    match acc with
    | [] => if abs then [] else [".."]
    | top :: tl => if top = ".." then seg :: acc else tl
  else seg :: acc

/-- Resolve a segment list (Node `normalizeString`). -/
def normSegs (abs : Bool) (segs : List String) : List String :=
  (segs.foldl (normStep abs) []).reverse

/-- Join segments with `/` (no leading or trailing separator). -/
def interSlash : List String → String
  | [] => ""
  | [s] => s
  | s :: rest => s ++ "/" ++ interSlash rest

/-- Print a resolved segment list: absolute paths get a leading `/`
(` []` prints as `/`), relative ones print as-is (`[]` prints as `.`). -/
def renderPath (abs : Bool) (segs : List String) : String :=
  if abs then String.mk ('/' :: (interSlash segs).data)
  else if segs = [] then "." else interSlash segs

/-- The resolved segments of a path string. -/
def resolvedSegs (p : String) : List String :=
  normSegs (isAbsPath p) (pathSegs p)

/-- Node `path.join(a, b)`: empty parts are skipped, the rest are joined
with `/` and the result is normalized. -/
def joinPath (a b : String) : String :=
  let raw := if a.data = [] then b else if b.data = [] then a else a ++ "/" ++ b
  if raw.data = [] then "."
  else renderPath (isAbsPath raw) (normSegs (isAbsPath raw) (pathSegs raw))

/-- Node `path.basename(p)`: strip trailing slashes, then take everything
after the last remaining slash (`basename "/" = ""`, `basename ".." = ".."`). -/
def basename (p : String) : String :=
  let s := (p.data.reverse.dropWhile (fun c => c = '/')).reverse
  match (splitOnChar '/' s).getLast? with
  | some l => String.mk l
  | none => ""

/-! ## Filesystem model

`Disk` records which canonical path strings exist as directories and which
as regular files.  All paths the handlers touch are outputs of `joinPath`,
hence already in canonical (normalized) form, so existence checks are
plain membership. -/

/-- The artifact-store filesystem: directory paths and regular-file paths. -/
structure Disk where
  dirs : List String
  files : List String
  deriving DecidableEq

/-- `fs.existsSync`. -/
def existsSync (d : Disk) (p : String) : Bool :=
  d.dirs.contains p || d.files.contains p

/-- The canonical paths of all ancestors of a resolved segment list,
including the path itself (and the root). -/
def prefixPaths (abs : Bool) (segs : List String) : List String :=
  (List.range (segs.length + 1)).map (fun i => renderPath abs (segs.take i))

/-- `fs.mkdirSync(p, {recursive: true})`: creates the directory and all
missing ancestors; fails if a regular file occupies any component. -/
def mkdirSyncRec (d : Disk) (p : String) : Except String Disk :=
  let ps := prefixPaths (isAbsPath p) (resolvedSegs p)
  if ps.any (fun q => d.files.contains q) then .error "EEXIST"
  else .ok { d with dirs := ps ++ d.dirs }

/-- The canonical path of the parent directory of `p`. -/
def parentPath (p : String) : String :=
  renderPath (isAbsPath p) (resolvedSegs p).dropLast

/-- `pipeline(data.file, fs.createWriteStream(p))`: fails if `p` is an
existing directory (EISDIR) or its parent directory does not exist
(ENOENT); otherwise creates or overwrites the regular file at `p`. -/
def writeFile (d : Disk) (p : String) : Except String Disk :=
  if d.dirs.contains p then .error "EISDIR"
  else if ¬ d.dirs.contains (parentPath p) then .error "ENOENT"
  else .ok { d with files := p :: d.files }

/-! ## Server state, configuration, environment, requests, responses -/

/-- The whole persistent state a request can observe or change: the two
database tables, the artifact-store filesystem, and the next
autoincrement ids. -/
structure ServerState where
  tests : List Test
  files : List FileRow
  disk : Disk
  nextTestId : Nat
  nextFileId : Nat
  deriving DecidableEq

/-- Startup configuration read from the process environment:
`upload_path` (`UPLOAD_PATH` or `${__dirname}/uploads`) and the shared
bearer secret (`BEARER_TOKEN`; `none` models an unset or empty — hence
falsy — variable). -/
structure Config where
  uploadPath : String
  bearerToken : Option String
  deriving DecidableEq

/-- Per-request ambient data: the current time (`new Date()`), the
generated `uid` default for a new `File` row, the request's
`Authorization` header, and whether the outbound GitHub workflow dispatch
call succeeds. -/
structure Env where
  now : Nat
  uid : String
  authHeader : Option String
  externalOk : Bool

/-- One request to each of the routes of `server.ts`.  An upload request
carries `some filename` when the multipart body has a file part (the
client-supplied filename, possibly empty) and `none` when it has none. -/
inductive Request where
  | newTest (name params : String)
  | startTest (name : String)
  | finishTest (name : String)
  | upload (name : String) (filePart : Option String)
  | runWorkflow
  | info (name : String)
  | download (id : String)
  | view (id : String)
  | list

/-- The observable outcome of a request.  `okStream` carries the streamed
file's on-disk path, the `Content-Disposition` kind (`"attachment"` or
`"inline"`) and the disposition filename.  `thrownError` is a plain JS
`throw`, `ioError` a rejected filesystem promise, and `dbError` an
uncaught Prisma error — all three surface as a generic 500 through
Fastify's default error handler, unlike the explicit `notFound` (404),
`unauthorized` (401) and `serverError` (500) replies. -/
inductive Resp where
  | okMsg (message : String) (id : Nat)
  | okStatus (status : String)
  | okUpload (message : String)
  | okInfo (test : Test) (files : List FileRow)
  | okList (items : List (Test × List FileRow))
  | okStream (path disposition filename : String)
  | accepted (message : String)
  | unauthorized (error : String)
  | notFound (error : String)
  | serverError (error : String)
  | thrownError (message : String)
  | ioError (message : String)
  | dbError (e : PrismaErr)
  deriving DecidableEq

/-! ## The bearer authentication hook (`bearerAuthHook`, server.ts:21-43) -/

/-- Character-list prefix test; models JS `String.prototype.startsWith`
(the prefixes used are ASCII, where JS UTF-16 units and chars agree). -/
def strStartsWith (s pre : String) : Bool :=
  pre.data.isPrefixOf s.data

/-- Drop the first `n` characters; models JS `String.prototype.slice(n)`
for an ASCII prefix of length `n`. -/
def strDrop (s : String) (n : Nat) : String :=
  String.mk (s.data.drop n)

/-- `bearerAuthHook`: `none` means the request is allowed through to the
handler, `some r` that it is rejected with reply `r`.  The token is
compared with `crypto.timingSafeEqual` after an explicit length check;
`timingSafeEqual` on equal-length byte buffers is exactly byte equality,
and UTF-8 encoding is injective, so the combined check is modelled by the
length check followed by string equality. -/
def bearerAuthHook (bearerToken : Option String) (authHeader : Option String) :
    Option Resp :=
  match bearerToken with
  | none => some (.unauthorized "Authentication is not configured")
  | some secret =>
    match authHeader with
    | none => some (.unauthorized "Missing or invalid authorization header")
    | some auth =>
      if strStartsWith auth "Bearer " = false then
        some (.unauthorized "Missing or invalid authorization header")
      else
        let token := strDrop auth 7
        if token.length ≠ secret.length ∨ token ≠ secret then
          some (.unauthorized "Invalid token")
        else none

/-! ## Database operations (Prisma calls made by the handlers) -/

/-- `prisma.test.findUnique({ where: { name } })`. -/
def findTestByName (ts : List Test) (name : String) : Option Test :=
  ts.find? (fun t => t.name == name)

/-- The `where` argument of `prisma.file.findUnique` in the download/view
handlers: a numeric id for an all-digit id parameter, otherwise the raw
string placed — unchanged — under the `id` key. -/
inductive IdWhere where
  | byId (n : Nat)
  | byStringOnIntColumn (s : String)
  deriving DecidableEq

/-- Decimal value of a digit string (the exact value of JS `Number(id)`
for the digit-only strings accepted by `/^\d+$/`). -/
def digitsToNat (l : List Char) : Nat :=
  l.foldl (fun a c => a * 10 + (c.toNat - 48)) 0

/-- `const numericId = /^\d+$/.test(id) ? Number(id) : undefined;`
`const where = numericId !== undefined ? { id: numericId } : { id };` -/
def fileWhere (id : String) : IdWhere :=
  if id.data ≠ [] ∧ id.data.all (fun c => c.isDigit) then .byId (digitsToNat id.data)
  else .byStringOnIntColumn id

/-- `prisma.file.findUnique({ where })`: a numeric id is looked up in the
`id` column; a string value for the `Int` column `id` makes the Prisma
client throw a validation error before any query runs. -/
def findUniqueFile (files : List FileRow) : IdWhere → Except PrismaErr (Option FileRow)
  | .byId n => .ok (files.find? (fun f => f.id == n))
  | .byStringOnIntColumn _ => .error .validationErr

/-! ## Route handlers -/

/-- Core of `GET /public/test/:name/info`: the test row together with its
`files` relation. -/
def getInfo (st : ServerState) (name : String) : Option (Test × List FileRow) :=
  (findTestByName st.tests name).map
    (fun t => (t, st.files.filter (fun f => f.testId == t.id)))

/-- Insert a test by descending `createdAt` into an already-sorted list. -/
def insertByCreated (t : Test) : List Test → List Test
  | [] => [t]
  | u :: us => if u.createdAt ≤ t.createdAt then t :: u :: us else u :: insertByCreated t us

/-- `orderBy: { createdAt: "desc" }` of `GET /public/test/list`. -/
def sortByCreatedDesc : List Test → List Test
  | [] => []
  | t :: ts => insertByCreated t (sortByCreatedDesc ts)

/-- `POST /test/:name/upload/file` with a file part carrying `fname`
(server.ts:132-165): look up the test, ensure its directory
`path.join(upload_path, test.name)` exists, stream the body to
`path.join(testDir, path.basename(data.filename || "upload"))`, then
insert a `File` row recording the raw original filename and the computed
path. -/
def uploadFile (cfg : Config) (st : ServerState) (env : Env)
    (name : String) (fname : String) : Resp × ServerState :=
  match findTestByName st.tests name with
  | none => (.notFound "Test not found", st)
  | some test =>
    let testDir := joinPath cfg.uploadPath test.name
    let mk : Except String Disk :=
      if existsSync st.disk testDir then .ok st.disk else mkdirSyncRec st.disk testDir
    match mk with
    | .error _ => (.serverError "Failed to create upload directory", st)
    | .ok disk1 =>
      let filename := basename (if fname.data = [] then "upload" else fname)
      let filePath := joinPath testDir filename
      match writeFile disk1 filePath with
      | .error e => (.ioError e, { st with disk := disk1 })
      | .ok disk2 =>
        let row : FileRow :=
          { id := st.nextFileId, uid := env.uid, originalName := fname
            path := filePath, size := 0, testId := test.id }
        (.okUpload "File uploaded successfully",
         { st with disk := disk2, files := st.files ++ [row],
                   nextFileId := st.nextFileId + 1 })

/-- The `Content-Disposition` filename of the download/view handlers:
`file.originalName ? path.basename(file.originalName) : path.basename(file.path)`
(the empty string is falsy in JS). -/
def dispositionName (f : FileRow) : String :=
  if f.originalName.data = [] then basename f.path else basename f.originalName

/-- `GET /public/file/:id/download` (server.ts:236-265). -/
def downloadFile (st : ServerState) (id : String) : Resp :=
  match findUniqueFile st.files (fileWhere id) with
  | .error e => .dbError e
  | .ok none => .notFound "File not found"
  | .ok (some f) =>
    if existsSync st.disk f.path then .okStream f.path "attachment" (dispositionName f)
    else .notFound "File is missing on disk"

/-- `GET /public/file/:id/view` (server.ts:268-298); identical to download
except for the inline disposition (and a `text/html` content type). -/
def viewFile (st : ServerState) (id : String) : Resp :=
  match findUniqueFile st.files (fileWhere id) with
  | .error e => .dbError e
  | .ok none => .notFound "File not found"
  | .ok (some f) =>
    if existsSync st.disk f.path then .okStream f.path "inline" (dispositionName f)
    else .notFound "File is missing on disk"

/-- One request step of the whole server: every route of `server.ts`,
including the `bearerAuthHook` preHandler on `/public/test/run`,
`/public/test/:name/info` and `/public/test/list`. -/
def handle (cfg : Config) (st : ServerState) (env : Env) : Request → Resp × ServerState
  | .newTest name params =>
    -- POST /test/new: prisma.test.create; a duplicate name violates the
    -- unique index on Test.name and throws P2002.
    if (findTestByName st.tests name).isSome then (.dbError .uniqueViolation, st)
    else
      let row : Test :=
        { id := st.nextTestId, name := name, createdAt := env.now
          startedAt := none, finishedAt := none, parameters := params }
      (.okMsg ("Test " ++ name ++ " created") row.id,
       { st with tests := st.tests ++ [row], nextTestId := st.nextTestId + 1 })
  | .startTest name =>
    -- POST /test/start: prisma.test.update({ where: { name, startedAt: null },
    -- data: { startedAt: now, finishedAt: null } }); the unique key is the
    -- name, the startedAt filter narrows it, and no match throws P2025.
    match findTestByName st.tests name with
    | none => (.dbError .recordNotFound, st)
    | some t =>
      if t.startedAt.isSome then (.dbError .recordNotFound, st)
      else
        let t' := { t with startedAt := some env.now, finishedAt := none }
        (.okMsg ("Test " ++ name ++ " started") t.id,
         { st with tests := st.tests.map (fun u => if u.name == name then t' else u) })
  | .finishTest name =>
    -- POST /test/finish: prisma.test.update({ where: { name },
    -- data: { finishedAt: now } }); an unknown name throws P2025.
    match findTestByName st.tests name with
    | none => (.dbError .recordNotFound, st)
    | some t =>
      let t' := { t with finishedAt := some env.now }
      (.okStatus "finished",
       { st with tests := st.tests.map (fun u => if u.name == name then t' else u) })
  | .upload name filePart =>
    -- POST /test/:name/upload/file: `if (!data) throw new Error(...)`
    -- comes before every database or filesystem access.
    match filePart with
    | none => (.thrownError "No file uploaded", st)
    | some fname => uploadFile cfg st env name fname
  | .runWorkflow =>
    match bearerAuthHook cfg.bearerToken env.authHeader with
    | some r => (r, st)
    | none =>
      if env.externalOk then (.accepted "Workflow l2-arkiv.yml triggered successfully", st)
      else (.serverError "Failed to trigger workflow", st)
  | .info name =>
    match bearerAuthHook cfg.bearerToken env.authHeader with
    | some r => (r, st)
    | none =>
      match getInfo st name with
      | some (t, fs) => (.okInfo t fs, st)
      | none => (.notFound "Not found", st)
  | .download id => (downloadFile st id, st)
  | .view id => (viewFile st id, st)
  | .list =>
    match bearerAuthHook cfg.bearerToken env.authHeader with
    | some r => (r, st)
    | none =>
      -- the response serializer projects each row to
      -- {id, name, createdAt, startedAt, finishedAt, params, files:[{id, originalName}]}
      (.okList ((sortByCreatedDesc st.tests).map
        (fun t => (t, st.files.filter (fun f => f.testId == t.id)))), st)

/-! ## Helper lemmas about the database lookups -/

/-- A successful `findUnique` by name returns a member row bearing that name. -/
theorem findTestByName_some {ts : List Test} {n : String} {t : Test}
    (h : findTestByName ts n = some t) : t ∈ ts ∧ t.name = n := by
  refine ⟨List.mem_of_find?_eq_some h, ?_⟩
  have := List.find?_some h
  simpa using this

/-- Under the unique index on `Test.name`, `findUnique` by name returns
exactly the member row with that name. -/
theorem findTestByName_eq_some_of_nodup {ts : List Test} {n : String} {t : Test}
    (hnd : (ts.map (fun u => u.name)).Nodup) (ht : t ∈ ts) (hn : t.name = n) :
    findTestByName ts n = some t := by
  induction ts with
  | nil => cases ht
  | cons u us ih =>
    rcases List.mem_cons.mp ht with rfl | hmem
    · simp [findTestByName, List.find?_cons_of_pos, hn]
    · have hu : ¬ (u.name == n) = true := by
        simp only [beq_iff_eq]
        intro hun
        have : t.name ∈ us.map (fun v => v.name) := List.mem_map_of_mem _ hmem
        rw [hn, ← hun] at this
        exact (List.nodup_cons.mp (by simpa using hnd)).1 this
      have hnd' : (us.map (fun v => v.name)).Nodup :=
        (List.nodup_cons.mp (by simpa using hnd)).2
      have hrec := ih hnd' hmem
      rw [findTestByName] at hrec ⊢
      exact (List.find?_cons_of_neg us hu).trans hrec

/-!
## C10: an upload request without a file part is rejected before any
database or filesystem access
-/

/-- C10: for every configuration, state and test name, a request to
`POST /test/:name/upload/file` whose multipart body carries no file part
makes the handler throw `Error("No file uploaded")` before any database
lookup, directory creation, disk write or `File`-row insert: the returned
state is exactly the incoming state. -/
theorem C10_upload_without_file_part_throws (cfg : Config) (st : ServerState)
    (env : Env) (name : String) :
    handle cfg st env (.upload name none) = (.thrownError "No file uploaded", st) := rfl

/-!
## C5: uploading to a nonexistent test fails with not-found and changes
nothing
-/

/-- C5: an upload request (carrying a file part) that names a test absent
from the database is answered with the 404 reply `Test not found`, and
neither the database tables nor the artifact store are changed: the
returned state is exactly the incoming state.  (A request without a file
part is rejected even earlier, see the C10 theorem.) -/
theorem C5_upload_unknown_test_not_found (cfg : Config) (st : ServerState)
    (env : Env) (name fname : String)
    (h : findTestByName st.tests name = none) :
    handle cfg st env (.upload name (some fname)) = (.notFound "Test not found", st) := by
  simp [handle, uploadFile, h]

/-- Witness for the C5 theorem at a concrete input. -/
theorem C5_upload_unknown_test_not_found_witness :
    findTestByName ([] : List Test) "ghost" = none ∧
    handle ⟨"/srv/uploads", none⟩ ⟨[], [], ⟨["/srv/uploads"], []⟩, 1, 1⟩ ⟨0, "u", none, true⟩
        (.upload "ghost" (some "a.txt"))
      = (.notFound "Test not found", ⟨[], [], ⟨["/srv/uploads"], []⟩, 1, 1⟩) :=
  ⟨by decide,
   C5_upload_unknown_test_not_found ⟨"/srv/uploads", none⟩
     ⟨[], [], ⟨["/srv/uploads"], []⟩, 1, 1⟩ ⟨0, "u", none, true⟩ "ghost" "a.txt" (by decide)⟩

/-!
## C2: the bearer authentication gate
-/

/-- C2: for every bearer-protected request: with no secret configured the
hook rejects with 401 `Authentication is not configured`; with a missing
`Authorization` header, or one not prefixed by `Bearer `, it rejects with
401 `Missing or invalid authorization header`; when the extracted token
(everything after the 7-character prefix) differs from the secret — in
length or content, hence in particular in the last character only — it
rejects with 401 `Invalid token`; and when the token equals the secret
exactly, the hook passes and the protected handler runs (shown on the
`GET /public/test/:name/info` route). -/
theorem C2_bearer_auth_gate (secret auth n : String) (st : ServerState)
    (up : String) (now : Nat) (uid : String) (ext : Bool) :
    (∀ h, bearerAuthHook none h = some (.unauthorized "Authentication is not configured")) ∧
    bearerAuthHook (some secret) none
      = some (.unauthorized "Missing or invalid authorization header") ∧
    (strStartsWith auth "Bearer " = false →
      bearerAuthHook (some secret) (some auth)
        = some (.unauthorized "Missing or invalid authorization header")) ∧
    (strStartsWith auth "Bearer " = true → strDrop auth 7 ≠ secret →
      bearerAuthHook (some secret) (some auth) = some (.unauthorized "Invalid token")) ∧
    (strStartsWith auth "Bearer " = true → strDrop auth 7 = secret →
      bearerAuthHook (some secret) (some auth) = none ∧
      handle ⟨up, some secret⟩ st ⟨now, uid, some auth, ext⟩ (.info n)
        = (match getInfo st n with
           | some (t, fs) => ((Resp.okInfo t fs), st)
           | none => ((Resp.notFound "Not found"), st))) := by
  refine ⟨fun h => rfl, rfl, ?_, ?_, ?_⟩
  · intro hpre
    simp [bearerAuthHook, hpre]
  · intro hpre htok
    simp [bearerAuthHook, hpre, htok]
  · intro hpre htok
    have hhook : bearerAuthHook (some secret) (some auth) = none := by
      simp [bearerAuthHook, hpre, htok]
    refine ⟨hhook, ?_⟩
    simp only [handle, hhook]

/-- Witness for the C2 theorem: with secret `s3cret`, a token differing
only in the last character is rejected and the exact token passes. -/
theorem C2_bearer_auth_gate_witness :
    (strStartsWith "Bearer s3creX" "Bearer " = true ∧ strDrop "Bearer s3creX" 7 ≠ "s3cret") ∧
    bearerAuthHook (some "s3cret") (some "Bearer s3creX")
      = some (.unauthorized "Invalid token") ∧
    bearerAuthHook (some "s3cret") (some "Bearer s3cret") = none :=
  ⟨⟨by decide, by decide⟩,
   (C2_bearer_auth_gate "s3cret" "Bearer s3creX" "t" ⟨[], [], ⟨[], []⟩, 1, 1⟩ "/u" 0 "u"
      true).2.2.2.1 (by decide) (by decide),
   ((C2_bearer_auth_gate "s3cret" "Bearer s3cret" "t" ⟨[], [], ⟨[], []⟩, 1, 1⟩ "/u" 0 "u"
      true).2.2.2.2 (by decide) (by decide)).1⟩

/-!
## C6: string file identifiers never resolve (code bug)

The download/view handlers state in a comment `Support numeric IDs and
string/UUID IDs`, and the `File` table has a unique string column `uid`
for exactly that purpose, but for a non-numeric `:id` the code passes
`{ id }` — the raw string under the `Int` column `id` — to
`prisma.file.findUnique`, which throws a client-side validation error
(surfaced as a 500) instead of resolving the row by `uid`.
-/

/-- C6: evaluation at the failing input.  In a state holding a `File` row
with `uid = "e3b0c442"`, requesting `/public/file/e3b0c442/download` (or
`/view`) raises the Prisma validation error — the row is not resolved and
the reply is neither a stream nor a 404 — while the same row is resolved
fine through its numeric id `1`. -/
theorem C6_string_id_lookup_throws :
    downloadFile ⟨[], [⟨1, "e3b0c442", "r.txt", "/srv/uploads/t1/r.txt", 0, 1⟩],
        ⟨["/srv/uploads/t1"], ["/srv/uploads/t1/r.txt"]⟩, 2, 2⟩ "e3b0c442"
      = .dbError .validationErr ∧
    viewFile ⟨[], [⟨1, "e3b0c442", "r.txt", "/srv/uploads/t1/r.txt", 0, 1⟩],
        ⟨["/srv/uploads/t1"], ["/srv/uploads/t1/r.txt"]⟩, 2, 2⟩ "e3b0c442"
      = .dbError .validationErr ∧
    downloadFile ⟨[], [⟨1, "e3b0c442", "r.txt", "/srv/uploads/t1/r.txt", 0, 1⟩],
        ⟨["/srv/uploads/t1"], ["/srv/uploads/t1/r.txt"]⟩, 2, 2⟩ "1"
      = .okStream "/srv/uploads/t1/r.txt" "attachment" "r.txt" := by
  refine ⟨by decide, by decide, by decide⟩

/-!
## C7: retrieval of a resolved file row streams or 404s on the disk check
-/

/-- C7: for every `File` row reached by the handlers (through a numeric
id parameter): when its recorded on-disk path no longer exists on the
artifact store, both `download` and `view` answer 404
`File is missing on disk` instead of a stream; when the path exists,
`download` streams it with an `attachment` disposition and `view` with an
`inline` disposition, both naming the disposition file after the original
name (or the stored path when the original name is empty). -/
theorem C7_retrieval_stream_or_not_found (st : ServerState) (id : String)
    (n : Nat) (f : FileRow)
    (hid : fileWhere id = .byId n)
    (hfind : st.files.find? (fun g => g.id == n) = some f) :
    (existsSync st.disk f.path = false →
      downloadFile st id = .notFound "File is missing on disk" ∧
      viewFile st id = .notFound "File is missing on disk") ∧
    (existsSync st.disk f.path = true →
      downloadFile st id = .okStream f.path "attachment" (dispositionName f) ∧
      viewFile st id = .okStream f.path "inline" (dispositionName f)) := by
  constructor
  · intro hmiss
    constructor <;> simp [downloadFile, viewFile, findUniqueFile, hid, hfind, hmiss]
  · intro hhit
    constructor <;> simp [downloadFile, viewFile, findUniqueFile, hid, hfind, hhit]

/-- Witness for the C7 theorem: a concrete row whose path was removed
out-of-band 404s on download, and the same row streams inline once the
path exists. -/
theorem C7_retrieval_stream_or_not_found_witness :
    (fileWhere "1" = .byId 1 ∧
      ([⟨1, "u1", "r.txt", "/srv/uploads/t1/r.txt", 0, 1⟩] :
        List FileRow).find? (fun g => g.id == 1)
        = some ⟨1, "u1", "r.txt", "/srv/uploads/t1/r.txt", 0, 1⟩) ∧
    downloadFile ⟨[], [⟨1, "u1", "r.txt", "/srv/uploads/t1/r.txt", 0, 1⟩],
        ⟨["/srv/uploads/t1"], []⟩, 2, 2⟩ "1"
      = .notFound "File is missing on disk" ∧
    viewFile ⟨[], [⟨1, "u1", "r.txt", "/srv/uploads/t1/r.txt", 0, 1⟩],
        ⟨["/srv/uploads/t1"], ["/srv/uploads/t1/r.txt"]⟩, 2, 2⟩ "1"
      = .okStream "/srv/uploads/t1/r.txt" "inline" "r.txt" :=
  ⟨⟨by decide, by decide⟩,
   (C7_retrieval_stream_or_not_found
      ⟨[], [⟨1, "u1", "r.txt", "/srv/uploads/t1/r.txt", 0, 1⟩], ⟨["/srv/uploads/t1"], []⟩, 2, 2⟩
      "1" 1 ⟨1, "u1", "r.txt", "/srv/uploads/t1/r.txt", 0, 1⟩ (by decide) (by decide)).1
      (by decide) |>.1,
   (C7_retrieval_stream_or_not_found
      ⟨[], [⟨1, "u1", "r.txt", "/srv/uploads/t1/r.txt", 0, 1⟩],
        ⟨["/srv/uploads/t1"], ["/srv/uploads/t1/r.txt"]⟩, 2, 2⟩
      "1" 1 ⟨1, "u1", "r.txt", "/srv/uploads/t1/r.txt", 0, 1⟩ (by decide) (by decide)).2
      (by decide) |>.2⟩

/-!
## C1: `POST /test/start` transitions only a not-yet-started test
-/

/-- C1: under the unique index on `Test.name`: (i) when the named test
exists with `startedAt` null, the start call succeeds, setting its
`startedAt` to the current time and `finishedAt` to null and leaving every
other row unchanged; (ii) when the named test exists but is already
started, the update matches no row, Prisma throws `P2025` (no fresh-start
success) and the state — in particular that row's `startedAt` — is
unchanged; (iii) when the name is unknown the call likewise fails with
`P2025` and the state is unchanged. -/
theorem C1_start_only_unstarted (cfg : Config) (st : ServerState) (env : Env)
    (n : String) (hnd : (st.tests.map (fun t => t.name)).Nodup) :
    (∀ t ∈ st.tests, t.name = n → t.startedAt = none →
      handle cfg st env (.startTest n)
        = (.okMsg ("Test " ++ n ++ " started") t.id,
           { st with tests := st.tests.map (fun u =>
               if u.name == n then { t with startedAt := some env.now, finishedAt := none }
               else u) })) ∧
    (∀ t ∈ st.tests, t.name = n → t.startedAt ≠ none →
      handle cfg st env (.startTest n) = (.dbError .recordNotFound, st)) ∧
    ((∀ t ∈ st.tests, t.name ≠ n) →
      handle cfg st env (.startTest n) = (.dbError .recordNotFound, st)) := by
  refine ⟨?_, ?_, ?_⟩
  · intro t ht hn hstart
    have hfind := findTestByName_eq_some_of_nodup hnd ht hn
    simp [handle, hfind, hstart]
  · intro t ht hn hstart
    have hfind := findTestByName_eq_some_of_nodup hnd ht hn
    have : t.startedAt.isSome := by
      cases hs : t.startedAt with
      | none => exact absurd hs hstart
      | some v => rfl
    simp [handle, hfind, this]
  · intro hnone
    have hfind : findTestByName st.tests n = none := by
      rw [findTestByName, List.find?_eq_none]
      intro t ht
      simpa using hnone t ht
    simp [handle, hfind]

/-- Witness for the C1 theorem: starting a fresh test stamps it, and a
second start call on the then-started row fails with `P2025` leaving the
row untouched. -/
theorem C1_start_only_unstarted_witness :
    handle ⟨"/srv/uploads", none⟩
        ⟨[⟨1, "run1", 0, none, none, "{}"⟩], [], ⟨[], []⟩, 2, 1⟩ ⟨7, "u", none, true⟩
        (.startTest "run1")
      = (.okMsg "Test run1 started" 1,
         ⟨[⟨1, "run1", 0, some 7, none, "{}"⟩], [], ⟨[], []⟩, 2, 1⟩) ∧
    handle ⟨"/srv/uploads", none⟩
        ⟨[⟨1, "run1", 0, some 7, none, "{}"⟩], [], ⟨[], []⟩, 2, 1⟩ ⟨9, "u", none, true⟩
        (.startTest "run1")
      = (.dbError .recordNotFound,
         ⟨[⟨1, "run1", 0, some 7, none, "{}"⟩], [], ⟨[], []⟩, 2, 1⟩) := by
  constructor
  · have h := (C1_start_only_unstarted ⟨"/srv/uploads", none⟩
      ⟨[⟨1, "run1", 0, none, none, "{}"⟩], [], ⟨[], []⟩, 2, 1⟩ ⟨7, "u", none, true⟩
      "run1" (by decide)).1 ⟨1, "run1", 0, none, none, "{}"⟩ (by decide) (by decide) (by decide)
    exact h.trans (by decide)
  · exact (C1_start_only_unstarted ⟨"/srv/uploads", none⟩
      ⟨[⟨1, "run1", 0, some 7, none, "{}"⟩], [], ⟨[], []⟩, 2, 1⟩ ⟨9, "u", none, true⟩
      "run1" (by decide)).2.1 ⟨1, "run1", 0, some 7, none, "{}"⟩ (by decide) (by decide)
      (by decide)

/-!
## C8: `POST /test/finish` stamps `finishedAt`, unknown names fail
-/

/-- C8: under the unique index on `Test.name`: when the named test exists,
the finish call sets its `finishedAt` to the current time (leaving
`startedAt` and every other row unchanged) and replies
`{status:"finished"}`; when no test with that name exists, the update's
unique `where` matches nothing and the call fails with Prisma's
record-not-found error `P2025` (surfaced through the framework as a
generic error reply), leaving the state unchanged. -/
theorem C8_finish_stamps_or_not_found (cfg : Config) (st : ServerState) (env : Env)
    (n : String) (hnd : (st.tests.map (fun t => t.name)).Nodup) :
    (∀ t ∈ st.tests, t.name = n →
      handle cfg st env (.finishTest n)
        = (.okStatus "finished",
           { st with tests := st.tests.map (fun u =>
               if u.name == n then { t with finishedAt := some env.now } else u) })) ∧
    ((∀ t ∈ st.tests, t.name ≠ n) →
      handle cfg st env (.finishTest n) = (.dbError .recordNotFound, st)) := by
  constructor
  · intro t ht hn
    have hfind := findTestByName_eq_some_of_nodup hnd ht hn
    simp [handle, hfind]
  · intro hnone
    have hfind : findTestByName st.tests n = none := by
      rw [findTestByName, List.find?_eq_none]
      intro t ht
      simpa using hnone t ht
    simp [handle, hfind]

/-- Witness for the C8 theorem: finishing an existing test stamps
`finishedAt = now`, finishing a nonexistent name fails with `P2025`. -/
theorem C8_finish_stamps_or_not_found_witness :
    handle ⟨"/srv/uploads", none⟩
        ⟨[⟨1, "run1", 0, some 3, none, "{}"⟩], [], ⟨[], []⟩, 2, 1⟩ ⟨9, "u", none, true⟩
        (.finishTest "run1")
      = (.okStatus "finished",
         ⟨[⟨1, "run1", 0, some 3, some 9, "{}"⟩], [], ⟨[], []⟩, 2, 1⟩) ∧
    handle ⟨"/srv/uploads", none⟩
        ⟨[⟨1, "run1", 0, some 3, none, "{}"⟩], [], ⟨[], []⟩, 2, 1⟩ ⟨9, "u", none, true⟩
        (.finishTest "ghost")
      = (.dbError .recordNotFound,
         ⟨[⟨1, "run1", 0, some 3, none, "{}"⟩], [], ⟨[], []⟩, 2, 1⟩) := by
  constructor
  · have h := (C8_finish_stamps_or_not_found ⟨"/srv/uploads", none⟩
      ⟨[⟨1, "run1", 0, some 3, none, "{}"⟩], [], ⟨[], []⟩, 2, 1⟩ ⟨9, "u", none, true⟩
      "run1" (by decide)).1 ⟨1, "run1", 0, some 3, none, "{}"⟩ (by decide) (by decide)
    exact h.trans (by decide)
  · exact (C8_finish_stamps_or_not_found ⟨"/srv/uploads", none⟩
      ⟨[⟨1, "run1", 0, some 3, none, "{}"⟩], [], ⟨[], []⟩, 2, 1⟩ ⟨9, "u", none, true⟩
      "ghost" (by decide)).2 (by decide)

/-!
## C4: `POST /test/new` rejects duplicates, creates and exposes fresh rows
-/

/-- C4: when a test with the requested name already exists, the insert
violates the unique index on `Test.name` and Prisma throws `P2002`
(surfaced as a generic error), leaving the state unchanged; when the name
is new, exactly one `Test` row is appended — `createdAt` defaulted to the
current time, `startedAt` and `finishedAt` null — and `getInfo` by that
name subsequently returns exactly this row. -/
theorem C4_create_unique_then_retrievable (cfg : Config) (st : ServerState)
    (env : Env) (n params : String) :
    ((∃ t ∈ st.tests, t.name = n) →
      handle cfg st env (.newTest n params) = (.dbError .uniqueViolation, st)) ∧
    ((∀ t ∈ st.tests, t.name ≠ n) →
      handle cfg st env (.newTest n params)
        = (.okMsg ("Test " ++ n ++ " created") st.nextTestId,
           { st with
               tests := st.tests ++ [⟨st.nextTestId, n, env.now, none, none, params⟩],
               nextTestId := st.nextTestId + 1 }) ∧
      getInfo (handle cfg st env (.newTest n params)).2 n
        = some (⟨st.nextTestId, n, env.now, none, none, params⟩,
                st.files.filter (fun f => f.testId == st.nextTestId))) := by
  constructor
  · rintro ⟨t, ht, hn⟩
    have hfind : (findTestByName st.tests n).isSome := by
      rw [findTestByName, List.find?_isSome]
      exact ⟨t, ht, by simpa using hn⟩
    simp [handle, hfind]
  · intro hnone
    have hfind : findTestByName st.tests n = none := by
      rw [findTestByName, List.find?_eq_none]
      intro t ht
      simpa using hnone t ht
    have hstep : handle cfg st env (.newTest n params)
        = (.okMsg ("Test " ++ n ++ " created") st.nextTestId,
           { st with
               tests := st.tests ++ [⟨st.nextTestId, n, env.now, none, none, params⟩],
               nextTestId := st.nextTestId + 1 }) := by
      simp [handle, hfind]
    refine ⟨hstep, ?_⟩
    rw [hstep]
    have happ : findTestByName
        (st.tests ++ [⟨st.nextTestId, n, env.now, none, none, params⟩]) n
        = some ⟨st.nextTestId, n, env.now, none, none, params⟩ := by
      rw [findTestByName, List.find?_append]
      rw [findTestByName] at hfind
      simp [hfind]
    simp [getInfo, happ]

/-- Witness for the C4 theorem: creating `run1` twice — the second create
fails with `P2002` and the first leaves a row retrievable via `getInfo`. -/
theorem C4_create_unique_then_retrievable_witness :
    handle ⟨"/srv/uploads", none⟩ ⟨[], [], ⟨[], []⟩, 1, 1⟩ ⟨4, "u", none, true⟩
        (.newTest "run1" "{}")
      = (.okMsg "Test run1 created" 1,
         ⟨[⟨1, "run1", 4, none, none, "{}"⟩], [], ⟨[], []⟩, 2, 1⟩) ∧
    getInfo ⟨[⟨1, "run1", 4, none, none, "{}"⟩], [], ⟨[], []⟩, 2, 1⟩ "run1"
      = some (⟨1, "run1", 4, none, none, "{}"⟩, []) ∧
    handle ⟨"/srv/uploads", none⟩ ⟨[⟨1, "run1", 4, none, none, "{}"⟩], [], ⟨[], []⟩, 2, 1⟩
        ⟨6, "u", none, true⟩ (.newTest "run1" "{}")
      = (.dbError .uniqueViolation, ⟨[⟨1, "run1", 4, none, none, "{}"⟩], [], ⟨[], []⟩, 2, 1⟩) := by
  refine ⟨?_, by decide, ?_⟩
  · have h := ((C4_create_unique_then_retrievable ⟨"/srv/uploads", none⟩
      ⟨[], [], ⟨[], []⟩, 1, 1⟩ ⟨4, "u", none, true⟩ "run1" "{}").2 (by decide)).1
    exact h.trans (by decide)
  · exact (C4_create_unique_then_retrievable ⟨"/srv/uploads", none⟩
      ⟨[⟨1, "run1", 4, none, none, "{}"⟩], [], ⟨[], []⟩, 2, 1⟩ ⟨6, "u", none, true⟩
      "run1" "{}").1 ⟨⟨1, "run1", 4, none, none, "{}"⟩, by decide, rfl⟩

/-!
## C9: no endpoint deletes a `Test` or `File` row, none mutates a `File` row
-/

/-- The upload handler never touches the `Test` table and only ever appends
to the `File` table. -/
theorem uploadFile_preserves_rows (cfg : Config) (st : ServerState) (env : Env)
    (name fname : String) :
    (uploadFile cfg st env name fname).2.tests = st.tests ∧
    ∀ f ∈ st.files, f ∈ (uploadFile cfg st env name fname).2.files := by
  unfold uploadFile
  cases hft : findTestByName st.tests name with
  | none => exact ⟨rfl, fun f hf => hf⟩
  | some t =>
    simp only
    split
    · exact ⟨rfl, fun f hf => hf⟩
    · split
      · exact ⟨rfl, fun f hf => hf⟩
      · exact ⟨rfl, fun f hf => List.mem_append_left _ hf⟩

/-- A name-keyed update whose replacement row keeps the identity fields of
the found row preserves — under the unique name index — every row's
identity fields. -/
theorem preserved_of_name_update (ts : List Test) (n : String) (t0 t' : Test)
    (hnd : (ts.map (fun u => u.name)).Nodup)
    (hfind : findTestByName ts n = some t0)
    (hid : t'.id = t0.id) (hname : t'.name = t0.name)
    (hcr : t'.createdAt = t0.createdAt) (hp : t'.parameters = t0.parameters) :
    ∀ t ∈ ts, ∃ u ∈ ts.map (fun v => if v.name == n then t' else v),
      u.id = t.id ∧ u.name = t.name ∧ u.createdAt = t.createdAt ∧
      u.parameters = t.parameters := by
  intro t ht
  by_cases h : t.name = n
  · have ht0 := findTestByName_some hfind
    have heq : t = t0 := List.inj_on_of_nodup_map hnd ht ht0.1 (by rw [h, ht0.2])
    subst heq
    exact ⟨t', List.mem_map.mpr ⟨t, ht, by simp [h]⟩, hid, hname, hcr, hp⟩
  · exact ⟨t, List.mem_map.mpr ⟨t, ht, by simp [h]⟩, rfl, rfl, rfl, rfl⟩

/-- Row preservation is trivial when the table is unchanged. -/
theorem preserved_of_same (ts : List Test) :
    ∀ t ∈ ts, ∃ u ∈ ts,
      u.id = t.id ∧ u.name = t.name ∧ u.createdAt = t.createdAt ∧
      u.parameters = t.parameters :=
  fun t ht => ⟨t, ht, rfl, rfl, rfl, rfl⟩

/-- C9: for every endpoint and every state satisfying the database's
unique-name invariant, every `File` row present before the request is
present — byte-for-byte unchanged — afterwards, and every `Test` row
present before is still present afterwards with its identity fields
(`id`, `name`, `createdAt`, `parameters`) intact: no exposed operation
deletes a `Test` or `File` row or mutates an existing `File` row; only
the explicit `start`/`finish` transitions touch a `Test` row, and only
its `startedAt`/`finishedAt` fields. -/
theorem C9_no_deletion_no_file_mutation (cfg : Config) (st : ServerState)
    (env : Env) (req : Request)
    (hnd : (st.tests.map (fun t => t.name)).Nodup) :
    (∀ f ∈ st.files, f ∈ (handle cfg st env req).2.files) ∧
    (∀ t ∈ st.tests, ∃ u ∈ (handle cfg st env req).2.tests,
      u.id = t.id ∧ u.name = t.name ∧ u.createdAt = t.createdAt ∧
      u.parameters = t.parameters) := by
  have triv : ∀ st' : ServerState, (handle cfg st env req).2 = st' → st'.files = st.files →
      st'.tests = st.tests →
      (∀ f ∈ st.files, f ∈ (handle cfg st env req).2.files) ∧
      (∀ t ∈ st.tests, ∃ u ∈ (handle cfg st env req).2.tests,
        u.id = t.id ∧ u.name = t.name ∧ u.createdAt = t.createdAt ∧
        u.parameters = t.parameters) := by
    intro st' h hfi hte
    rw [h, hfi, hte]
    exact ⟨fun f hf => hf, preserved_of_same st.tests⟩
  cases req with
  | newTest n params =>
    by_cases hdup : (findTestByName st.tests n).isSome
    · exact triv st (by simp [handle, hdup]) rfl rfl
    · have hst : (handle cfg st env (.newTest n params)).2
          = { st with
                tests := st.tests ++ [⟨st.nextTestId, n, env.now, none, none, params⟩],
                nextTestId := st.nextTestId + 1 } := by
        simp [handle, hdup]
      rw [hst]
      exact ⟨fun f hf => hf,
        fun t ht => ⟨t, List.mem_append_left _ ht, rfl, rfl, rfl, rfl⟩⟩
  | startTest n =>
    cases hf : findTestByName st.tests n with
    | none => exact triv st (by simp [handle, hf]) rfl rfl
    | some t0 =>
      by_cases hs : t0.startedAt.isSome
      · exact triv st (by simp [handle, hf, hs]) rfl rfl
      · have hst : (handle cfg st env (.startTest n)).2
            = { st with tests := st.tests.map (fun u =>
                if u.name == n then { t0 with startedAt := some env.now, finishedAt := none }
                else u) } := by
          simp [handle, hf, hs]
        rw [hst]
        exact ⟨fun f hf => hf,
          preserved_of_name_update st.tests n t0
            { t0 with startedAt := some env.now, finishedAt := none }
            hnd hf rfl rfl rfl rfl⟩
  | finishTest n =>
    cases hf : findTestByName st.tests n with
    | none => exact triv st (by simp [handle, hf]) rfl rfl
    | some t0 =>
      have hst : (handle cfg st env (.finishTest n)).2
          = { st with tests := st.tests.map (fun u =>
              if u.name == n then { t0 with finishedAt := some env.now } else u) } := by
        simp [handle, hf]
      rw [hst]
      exact ⟨fun f hf => hf,
        preserved_of_name_update st.tests n t0
          { t0 with finishedAt := some env.now } hnd hf rfl rfl rfl rfl⟩
  | upload name filePart =>
    cases filePart with
    | none => exact ⟨fun f hf => hf, preserved_of_same st.tests⟩
    | some fname =>
      have hu := uploadFile_preserves_rows cfg st env name fname
      have heq : (handle cfg st env (.upload name (some fname)))
          = uploadFile cfg st env name fname := rfl
      rw [heq]
      exact ⟨hu.2, fun t ht => ⟨t, by rw [hu.1]; exact ht, rfl, rfl, rfl, rfl⟩⟩
  | runWorkflow =>
    cases hb : bearerAuthHook cfg.bearerToken env.authHeader with
    | some r => exact triv st (by simp [handle, hb]) rfl rfl
    | none =>
      by_cases he : env.externalOk
      · exact triv st (by simp [handle, hb, he]) rfl rfl
      · exact triv st (by simp [handle, hb, he]) rfl rfl
  | info name =>
    cases hb : bearerAuthHook cfg.bearerToken env.authHeader with
    | some r => exact triv st (by simp [handle, hb]) rfl rfl
    | none =>
      cases hg : getInfo st name with
      | none => exact triv st (by simp [handle, hb, hg]) rfl rfl
      | some p =>
        cases p with
        | mk t fs => exact triv st (by simp [handle, hb, hg]) rfl rfl
  | download id => exact triv st rfl rfl rfl
  | view id => exact triv st rfl rfl rfl
  | list =>
    cases hb : bearerAuthHook cfg.bearerToken env.authHeader with
    | some r => exact triv st (by simp [handle, hb]) rfl rfl
    | none => exact triv st (by simp [handle, hb]) rfl rfl

/-- Witness for the C9 theorem: a concrete `File` row and `Test` row
survive a `finish` request unharmed. -/
theorem C9_no_deletion_no_file_mutation_witness :
    (⟨1, "u1", "a.txt", "/srv/uploads/run1/a.txt", 0, 1⟩ : FileRow)
      ∈ (handle ⟨"/srv/uploads", none⟩
          ⟨[⟨1, "run1", 0, some 3, none, "{}"⟩],
           [⟨1, "u1", "a.txt", "/srv/uploads/run1/a.txt", 0, 1⟩], ⟨[], []⟩, 2, 2⟩
          ⟨9, "u", none, true⟩ (.finishTest "run1")).2.files ∧
    ∃ u ∈ (handle ⟨"/srv/uploads", none⟩
          ⟨[⟨1, "run1", 0, some 3, none, "{}"⟩],
           [⟨1, "u1", "a.txt", "/srv/uploads/run1/a.txt", 0, 1⟩], ⟨[], []⟩, 2, 2⟩
          ⟨9, "u", none, true⟩ (.finishTest "run1")).2.tests,
        u.id = 1 ∧ u.name = "run1" ∧ u.createdAt = 0 ∧ u.parameters = "{}" :=
  ⟨(C9_no_deletion_no_file_mutation ⟨"/srv/uploads", none⟩
      ⟨[⟨1, "run1", 0, some 3, none, "{}"⟩],
       [⟨1, "u1", "a.txt", "/srv/uploads/run1/a.txt", 0, 1⟩], ⟨[], []⟩, 2, 2⟩
      ⟨9, "u", none, true⟩ (.finishTest "run1") (by decide)).1
      ⟨1, "u1", "a.txt", "/srv/uploads/run1/a.txt", 0, 1⟩ (by decide),
   (C9_no_deletion_no_file_mutation ⟨"/srv/uploads", none⟩
      ⟨[⟨1, "run1", 0, some 3, none, "{}"⟩],
       [⟨1, "u1", "a.txt", "/srv/uploads/run1/a.txt", 0, 1⟩], ⟨[], []⟩, 2, 2⟩
      ⟨9, "u", none, true⟩ (.finishTest "run1") (by decide)).2
      ⟨1, "run1", 0, some 3, none, "{}"⟩ (by decide)⟩

/-!
## Path-model lemmas (towards C3)
-/

/-- Splitting never yields an empty list of segments. -/
theorem splitOnChar_ne_nil (c : Char) (l : List Char) : splitOnChar c l ≠ [] := by
  cases l with
  | nil => simp [splitOnChar]
  | cons x xs =>
    unfold splitOnChar
    cases h : splitOnChar c xs with
    | nil => simp
    | cons y ys => by_cases hx : x = c <;> simp [hx]

/-- Unfolding equation of `splitOnChar` on a cons cell. -/
theorem splitOnChar_cons (c x : Char) (xs : List Char) :
    splitOnChar c (x :: xs)
      = match splitOnChar c xs with
        | [] => [[x]]
        | y :: ys => if x = c then [] :: y :: ys else (x :: y) :: ys := rfl

/-- No segment produced by splitting contains the separator. -/
theorem not_mem_of_mem_splitOnChar (c : Char) (l : List Char) :
    ∀ seg ∈ splitOnChar c l, c ∉ seg := by
  induction l with
  | nil =>
    intro seg hseg
    simp only [splitOnChar, List.mem_singleton] at hseg
    subst hseg
    simp
  | cons x xs ih =>
    intro seg hseg
    rw [splitOnChar_cons] at hseg
    cases h : splitOnChar c xs with
    | nil => exact absurd h (splitOnChar_ne_nil c xs)
    | cons y ys =>
      rw [h] at hseg
      dsimp only at hseg
      by_cases hx : x = c
      · rw [if_pos hx] at hseg
        rcases List.mem_cons.mp hseg with rfl | hseg'
        · simp
        · exact ih seg (h ▸ hseg')
      · rw [if_neg hx] at hseg
        rcases List.mem_cons.mp hseg with rfl | hseg'
        · intro hc
          rcases List.mem_cons.mp hc with rfl | hc'
          · exact hx rfl
          · exact ih y (h ▸ List.mem_cons_self y ys) hc'
        · exact ih seg (h ▸ List.mem_cons_of_mem y hseg')

/-- Splitting a list that starts with the separator. -/
theorem splitOnChar_cons_self (c : Char) (l : List Char) :
    splitOnChar c (c :: l) = [] :: splitOnChar c l := by
  rw [splitOnChar_cons]
  cases h : splitOnChar c l with
  | nil => exact absurd h (splitOnChar_ne_nil c l)
  | cons y ys => dsimp only; rw [if_pos rfl]

/-- Splitting distributes over an occurrence of the separator. -/
theorem splitOnChar_append (c : Char) (xs ys : List Char) :
    splitOnChar c (xs ++ c :: ys) = splitOnChar c xs ++ splitOnChar c ys := by
  induction xs with
  | nil =>
    simp only [List.nil_append]
    rw [splitOnChar_cons_self]
    rfl
  | cons x xs ih =>
    simp only [List.cons_append]
    rw [splitOnChar_cons, splitOnChar_cons, ih]
    cases h : splitOnChar c xs with
    | nil => exact absurd h (splitOnChar_ne_nil c xs)
    | cons y zs =>
      simp only [List.cons_append]
      by_cases hx : x = c <;> simp [hx]

/-- A separator-free list splits as itself. -/
theorem splitOnChar_of_not_mem (c : Char) (l : List Char) (h : c ∉ l) :
    splitOnChar c l = [l] := by
  induction l with
  | nil => rfl
  | cons x xs ih =>
    have hx : ¬ x = c := fun e => h (List.mem_cons.mpr (Or.inl e.symm))
    have hxs : c ∉ xs := fun m => h (List.mem_cons_of_mem _ m)
    rw [splitOnChar_cons, ih hxs]
    dsimp only
    rw [if_neg hx]

/-- Rebuilding a string from its character data. -/
theorem String_mk_data (s : String) : String.mk s.data = s := by
  cases s
  rfl

/-- Data of `interSlash` on a list of at least two segments. -/
theorem interSlash_cons (s : String) (rest : List String) (h : rest ≠ []) :
    interSlash (s :: rest) = s ++ "/" ++ interSlash rest := by
  cases rest with
  | nil => exact absurd rfl h
  | cons r rs => rfl

/-- Splitting inverts joining for slash-free segments. -/
theorem pathSegs_interSlash (parts : List String) (hne : parts ≠ [])
    (hok : ∀ s ∈ parts, '/' ∉ s.data) :
    pathSegs (interSlash parts) = parts := by
  induction parts with
  | nil => exact absurd rfl hne
  | cons p rest ih =>
    cases rest with
    | nil =>
      have hp : '/' ∉ p.data := hok p (List.mem_cons_self _ _)
      show pathSegs (interSlash [p]) = [p]
      simp only [interSlash, pathSegs]
      rw [splitOnChar_of_not_mem _ _ hp]
      simp [String_mk_data]
    | cons q qs =>
      have hq : (q :: qs) ≠ [] := by simp
      rw [interSlash_cons p (q :: qs) hq]
      have hdata : (p ++ "/" ++ interSlash (q :: qs)).data
          = p.data ++ '/' :: (interSlash (q :: qs)).data := by
        rw [String.data_append, String.data_append]
        simp
      rw [pathSegs, hdata, splitOnChar_append, List.map_append]
      have hp : '/' ∉ p.data := hok p (List.mem_cons_self _ _)
      rw [splitOnChar_of_not_mem _ _ hp]
      have hok' : ∀ s ∈ q :: qs, '/' ∉ s.data :=
        fun s hs => hok s (List.mem_cons_of_mem _ hs)
      have := ih hq hok'
      rw [pathSegs] at this
      rw [this]
      simp [String_mk_data]

/-- A segment acceptable as a single relative path component: nonempty,
slash-free, and neither `.` nor `..`. -/
def SegOk (s : String) : Prop :=
  s.data ≠ [] ∧ '/' ∉ s.data ∧ s ≠ "." ∧ s ≠ ".."

instance (s : String) : Decidable (SegOk s) := by
  unfold SegOk
  infer_instance

/-- Every segment of the list is acceptable. -/
def SegsOk (S : List String) : Prop := ∀ s ∈ S, SegOk s

instance (S : List String) : Decidable (SegsOk S) :=
  List.decidableBAll _ S

/-- `normStep` pushes an acceptable segment. -/
theorem normStep_clean (abs : Bool) (acc : List String) (s : String) (hs : SegOk s) :
    normStep abs acc s = s :: acc := by
  rcases hs with ⟨hne, _, hdot, hdd⟩
  have h1 : ¬(s = "" ∨ s = ".") := by
    rintro (rfl | rfl)
    · exact hne rfl
    · exact hdot rfl
  simp only [normStep]
  rw [if_neg h1, if_neg hdd]

/-- Folding `normStep` over acceptable segments stacks them. -/
theorem foldl_normStep_clean (abs : Bool) (S : List String) (hok : SegsOk S) :
    ∀ acc, S.foldl (normStep abs) acc = S.reverse ++ acc := by
  induction S with
  | nil => intro acc; rfl
  | cons s rest ih =>
    intro acc
    have hs := hok s (List.mem_cons_self _ _)
    have hok' : SegsOk rest := fun u hu => hok u (List.mem_cons_of_mem _ hu)
    rw [List.foldl_cons, normStep_clean abs acc s hs, ih hok' (s :: acc)]
    simp

/-- Normalizing a leading empty segment followed by acceptable segments. -/
theorem normSegs_emptyCons_clean (S : List String) (hok : SegsOk S) :
    normSegs true ("" :: S) = S := by
  unfold normSegs
  rw [List.foldl_cons]
  have h0 : normStep true [] "" = [] := by simp [normStep]
  rw [h0, foldl_normStep_clean true S hok []]
  simp

/-- Appending an empty or `.` segment is dropped by normalization. -/
theorem normSegs_snoc_skip (S : List String) (hok : SegsOk S) (b : String)
    (hb : b = "" ∨ b = ".") :
    normSegs true ("" :: (S ++ [b])) = S := by
  unfold normSegs
  rw [List.foldl_cons]
  have h0 : normStep true [] "" = [] := by simp [normStep]
  rw [h0, List.foldl_append, foldl_normStep_clean true S hok []]
  have hstep : normStep true (S.reverse ++ []) b = S.reverse ++ [] := by
    rcases hb with rfl | rfl <;> simp [normStep]
  rw [List.foldl_cons, List.foldl_nil, hstep]
  simp

/-- Appending a `..` segment pops the last resolved segment. -/
theorem normSegs_snoc_dotdot (S : List String) (hok : SegsOk S) :
    normSegs true ("" :: (S ++ [".."])) = S.dropLast := by
  unfold normSegs
  rw [List.foldl_cons]
  have h0 : normStep true [] "" = [] := by simp [normStep]
  rw [h0, List.foldl_append, foldl_normStep_clean true S hok [], List.foldl_cons,
    List.foldl_nil]
  rcases List.eq_nil_or_concat S with rfl | ⟨l, a, rfl⟩
  · simp [normStep]
  · simp only [List.concat_eq_append] at hok ⊢
    have ha : SegOk a := hok a (by simp)
    have hne : ¬ (a = ".." ) := ha.2.2.2
    have hrev : (l ++ [a]).reverse ++ ([] : List String) = a :: l.reverse := by simp
    rw [hrev]
    have hstep : normStep true (a :: l.reverse) ".." = l.reverse := by
      simp [normStep, hne]
    rw [hstep, List.reverse_reverse, List.dropLast_concat]

/-- Character data of an absolute rendered path. -/
theorem data_renderTrue (S : List String) :
    (renderPath true S).data = '/' :: (interSlash S).data := by
  simp [renderPath]

/-- An absolute rendered path is absolute. -/
theorem isAbsPath_renderTrue (S : List String) :
    isAbsPath (renderPath true S) = true := by
  unfold isAbsPath
  rw [data_renderTrue]
  simp

/-- An absolute rendered path is a nonempty string. -/
theorem renderTrue_data_ne_nil (S : List String) :
    (renderPath true S).data ≠ [] := by
  rw [data_renderTrue]
  simp

/-- Parsing an absolute rendered path recovers a leading empty segment
followed by the rendered segments. -/
theorem pathSegs_renderTrue (S : List String) (hne : S ≠ [])
    (hok : ∀ s ∈ S, '/' ∉ s.data) :
    pathSegs (renderPath true S) = "" :: S := by
  rw [pathSegs, data_renderTrue, splitOnChar_cons_self, List.map_cons]
  have := pathSegs_interSlash S hne hok
  rw [pathSegs] at this
  rw [this]

/-- Resolving an absolute rendered path of acceptable segments is the
identity. -/
theorem resolvedSegs_renderTrue (S : List String) (hok : SegsOk S) (hne : S ≠ []) :
    resolvedSegs (renderPath true S) = S := by
  rw [resolvedSegs, isAbsPath_renderTrue,
    pathSegs_renderTrue S hne (fun s hs => (hok s hs).2.1)]
  exact normSegs_emptyCons_clean S hok

/-- Absoluteness of an appended path is decided by its nonempty head. -/
theorem isAbsPath_append (a b : String) (ha : a.data ≠ []) :
    isAbsPath (a ++ b) = isAbsPath a := by
  unfold isAbsPath
  rw [String.data_append]
  cases h : a.data with
  | nil => exact absurd h ha
  | cons x xs => rfl

/-- Parsing distributes over joining two paths with a slash. -/
theorem pathSegs_slash_append (a b : String) :
    pathSegs (a ++ "/" ++ b) = pathSegs a ++ pathSegs b := by
  unfold pathSegs
  rw [String.data_append, String.data_append]
  have h1 : ("/" : String).data = ['/'] := rfl
  rw [h1, List.append_assoc]
  have h2 : ['/'] ++ b.data = '/' :: b.data := rfl
  rw [h2, splitOnChar_append, List.map_append]

/-- Expanding `joinPath` when both arguments are nonempty strings. -/
theorem joinPath_eq (a b : String) (ha : a.data ≠ []) (hb : b.data ≠ []) :
    joinPath a b
      = renderPath (isAbsPath (a ++ "/" ++ b))
          (normSegs (isAbsPath (a ++ "/" ++ b)) (pathSegs (a ++ "/" ++ b))) := by
  unfold joinPath
  rw [if_neg ha, if_neg hb]
  have hraw : (a ++ "/" ++ b).data ≠ [] := by
    rw [String.data_append]
    intro h
    exact hb (List.append_eq_nil.mp h).2
  rw [if_neg hraw]

/-- `path.join` of an absolute rendered directory and one acceptable
segment appends the segment. -/
theorem joinPath_renderTrue_clean (S : List String) (hok : SegsOk S) (hne : S ≠ [])
    (b : String) (hb : SegOk b) :
    joinPath (renderPath true S) b = renderPath true (S ++ [b]) := by
  rw [joinPath_eq _ _ (renderTrue_data_ne_nil S) hb.1]
  have habs : isAbsPath (renderPath true S ++ "/" ++ b) = true := by
    rw [isAbsPath_append _ _ (by rw [String.data_append]; simp [renderTrue_data_ne_nil S]),
      isAbsPath_append _ _ (renderTrue_data_ne_nil S), isAbsPath_renderTrue]
  rw [habs, pathSegs_slash_append,
    pathSegs_renderTrue S hne (fun s hs => (hok s hs).2.1)]
  have hbsegs : pathSegs b = [b] := by
    rw [pathSegs, splitOnChar_of_not_mem _ _ hb.2.1, List.map_cons, List.map_nil,
      String_mk_data]
  rw [hbsegs, List.cons_append, normSegs_emptyCons_clean (S ++ [b])
    (fun s hs => by
      rcases List.mem_append.mp hs with h | h
      · exact hok s h
      · rw [List.mem_singleton.mp h]; exact hb)]

/-- `path.join` of an absolute rendered directory and an empty segment
re-normalizes to the directory itself. -/
theorem joinPath_renderTrue_empty (S : List String) (hok : SegsOk S) (hne : S ≠ []) :
    joinPath (renderPath true S) "" = renderPath true S := by
  unfold joinPath
  rw [if_neg (renderTrue_data_ne_nil S)]
  rw [if_pos rfl, if_neg (renderTrue_data_ne_nil S), isAbsPath_renderTrue]
  rw [pathSegs_renderTrue S hne (fun s hs => (hok s hs).2.1),
    normSegs_emptyCons_clean S hok]

/-- `path.join` of an absolute rendered directory and a `.` segment
normalizes to the directory itself. -/
theorem joinPath_renderTrue_dot (S : List String) (hok : SegsOk S) (hne : S ≠ []) :
    joinPath (renderPath true S) "." = renderPath true S := by
  rw [joinPath_eq _ _ (renderTrue_data_ne_nil S) (by decide)]
  have habs : isAbsPath (renderPath true S ++ "/" ++ ".") = true := by
    rw [isAbsPath_append _ _ (by rw [String.data_append]; simp [renderTrue_data_ne_nil S]),
      isAbsPath_append _ _ (renderTrue_data_ne_nil S), isAbsPath_renderTrue]
  rw [habs, pathSegs_slash_append,
    pathSegs_renderTrue S hne (fun s hs => (hok s hs).2.1)]
  have hdotsegs : pathSegs "." = ["."] := by decide
  rw [hdotsegs, List.cons_append, normSegs_snoc_skip S hok "." (Or.inr rfl)]

/-- `path.join` of an absolute rendered directory and a `..` segment
normalizes to the parent directory. -/
theorem joinPath_renderTrue_dotdot (S : List String) (hok : SegsOk S) (hne : S ≠ []) :
    joinPath (renderPath true S) ".." = renderPath true S.dropLast := by
  rw [joinPath_eq _ _ (renderTrue_data_ne_nil S) (by decide)]
  have habs : isAbsPath (renderPath true S ++ "/" ++ "..") = true := by
    rw [isAbsPath_append _ _ (by rw [String.data_append]; simp [renderTrue_data_ne_nil S]),
      isAbsPath_append _ _ (renderTrue_data_ne_nil S), isAbsPath_renderTrue]
  rw [habs, pathSegs_slash_append,
    pathSegs_renderTrue S hne (fun s hs => (hok s hs).2.1)]
  have hddsegs : pathSegs ".." = [".."] := by decide
  rw [hddsegs, List.cons_append, normSegs_snoc_dotdot S hok]

/-- The parent of an absolute rendered path drops its last segment. -/
theorem parentPath_renderTrue_snoc (S : List String) (b : String)
    (hok : SegsOk (S ++ [b])) :
    parentPath (renderPath true (S ++ [b])) = renderPath true S := by
  unfold parentPath
  rw [resolvedSegs_renderTrue _ hok (by simp), isAbsPath_renderTrue,
    List.dropLast_concat]

/-- A successful recursive mkdir adds exactly the ancestor chain to the
directories and leaves the regular files untouched. -/
theorem mkdirSyncRec_ok (d : Disk) (p : String) (d' : Disk)
    (h : mkdirSyncRec d p = .ok d') :
    d'.files = d.files ∧
    d'.dirs = prefixPaths (isAbsPath p) (resolvedSegs p) ++ d.dirs := by
  simp only [mkdirSyncRec] at h
  split at h
  · cases h
  · cases h
    exact ⟨rfl, rfl⟩

/-- The full path itself is part of its own ancestor chain. -/
theorem self_mem_prefixPaths (abs : Bool) (segs : List String) :
    renderPath abs segs ∈ prefixPaths abs segs := by
  unfold prefixPaths
  refine List.mem_map.mpr ⟨segs.length, ?_, by rw [List.take_length]⟩
  simp [List.mem_range]

/-- A successful stream write records exactly the new file path. -/
theorem writeFile_ok (d : Disk) (p : String) (d' : Disk)
    (h : writeFile d p = .ok d') :
    d'.dirs = d.dirs ∧ d'.files = p :: d.files := by
  unfold writeFile at h
  split at h
  · cases h
  · split at h
    · cases h
    · cases h
      exact ⟨rfl, rfl⟩

/-- Streaming onto an existing directory fails with EISDIR. -/
theorem writeFile_isdir (d : Disk) (p : String) (h : p ∈ d.dirs) :
    writeFile d p = .error "EISDIR" := by
  unfold writeFile
  rw [if_pos (List.elem_iff.mpr h)]

/-- `path.basename` never returns a string containing a separator. -/
theorem basename_no_slash (p : String) : '/' ∉ (basename p).data := by
  simp only [basename]
  cases h : (splitOnChar '/' ((p.data.reverse.dropWhile (fun c => c = '/')).reverse)).getLast? with
  | none => simp
  | some l =>
    have hmem := List.mem_of_mem_getLast? h
    exact not_mem_of_mem_splitOnChar '/' _ l hmem


/-- Branch equation of the upload handler: when the directory step yields
`disk1`, the handler is the write step against `disk1`. -/
theorem uploadFile_eq_write (cfg : Config) (st : ServerState) (env : Env)
    (n fname : String) (t : Test) (disk1 : Disk)
    (hfind : findTestByName st.tests n = some t)
    (hmk : (if existsSync st.disk (joinPath cfg.uploadPath t.name) then Except.ok st.disk
            else mkdirSyncRec st.disk (joinPath cfg.uploadPath t.name) : Except String Disk)
           = .ok disk1) :
    uploadFile cfg st env n fname =
      match writeFile disk1 (joinPath (joinPath cfg.uploadPath t.name)
          (basename (if fname.data = [] then "upload" else fname))) with
      | .error e => (.ioError e, { st with disk := disk1 })
      | .ok disk2 =>
        (.okUpload "File uploaded successfully",
         { st with disk := disk2,
                   files := st.files ++ [⟨st.nextFileId, env.uid, fname,
                     joinPath (joinPath cfg.uploadPath t.name)
                       (basename (if fname.data = [] then "upload" else fname)), 0, t.id⟩],
                   nextFileId := st.nextFileId + 1 }) := by
  unfold uploadFile
  rw [hfind]
  simp only
  rw [hmk]

/-- Branch equation of the upload handler: when the directory step fails,
the handler replies with a 500 and leaves the state unchanged. -/
theorem uploadFile_eq_mkfail (cfg : Config) (st : ServerState) (env : Env)
    (n fname : String) (t : Test) (e : String)
    (hfind : findTestByName st.tests n = some t)
    (hmk : (if existsSync st.disk (joinPath cfg.uploadPath t.name) then Except.ok st.disk
            else mkdirSyncRec st.disk (joinPath cfg.uploadPath t.name) : Except String Disk)
           = .error e) :
    uploadFile cfg st env n fname = (.serverError "Failed to create upload directory", st) := by
  unfold uploadFile
  rw [hfind]
  simp only
  rw [hmk]


/-- The write step of the upload handler, given the facts established by
the directory step: the write target is `root/name/basename`, a degenerate
basename (empty, `.` or `..`) hits an existing directory and fails, and a
successful write appends exactly one file inside the test's directory. -/
theorem upload_write_step
    (cfg : Config) (st : ServerState) (env : Env) (R : List String)
    (n fname : String) (t : Test) (disk1 : Disk)
    (hR : SegsOk R) (hRne : R ≠ []) (hn : SegOk n)
    (hroot : cfg.uploadPath = renderPath true R)
    (hfind : findTestByName st.tests n = some t)
    (hmk : (if existsSync st.disk (joinPath cfg.uploadPath t.name) then Except.ok st.disk
            else mkdirSyncRec st.disk (joinPath cfg.uploadPath t.name) : Except String Disk)
           = .ok disk1)
    (hf1 : disk1.files = st.disk.files)
    (hdir1 : renderPath true (R ++ [n]) ∈ disk1.dirs)
    (hroot1 : cfg.uploadPath ∈ disk1.dirs) :
    ((uploadFile cfg st env n fname).1 = .okUpload "File uploaded successfully" →
      SegOk (basename (if fname.data = [] then "upload" else fname)) ∧
      (uploadFile cfg st env n fname).2.files
        = st.files ++ [⟨st.nextFileId, env.uid, fname,
            renderPath true (R ++ [n, basename (if fname.data = [] then "upload" else fname)]),
            0, t.id⟩] ∧
      (uploadFile cfg st env n fname).2.disk.files
        = renderPath true (R ++ [n, basename (if fname.data = [] then "upload" else fname)])
            :: st.disk.files) ∧
    ((uploadFile cfg st env n fname).1 ≠ .okUpload "File uploaded successfully" →
      (uploadFile cfg st env n fname).2.files = st.files ∧
      (uploadFile cfg st env n fname).2.disk.files = st.disk.files) := by
  have htn : t.name = n := (findTestByName_some hfind).2
  have hT : SegsOk (R ++ [n]) := by
    intro s hs
    rcases List.mem_append.mp hs with h | h
    · exact hR s h
    · rw [List.mem_singleton.mp h]; exact hn
  have hTne : R ++ [n] ≠ [] := by simp
  have htd : joinPath cfg.uploadPath t.name = renderPath true (R ++ [n]) := by
    rw [htn, hroot]
    exact joinPath_renderTrue_clean R hR hRne n hn
  rw [uploadFile_eq_write cfg st env n fname t disk1 hfind hmk, htd]
  have hbs : '/' ∉ (basename (if fname.data = [] then "upload" else fname)).data :=
    basename_no_slash _
  set b := basename (if fname.data = [] then "upload" else fname) with hbdef
  by_cases hb0 : b.data = []
  · have hbe : b = "" := String.ext (by rw [hb0]; try rfl)
    rw [hbe, joinPath_renderTrue_empty (R ++ [n]) hT hTne,
      writeFile_isdir disk1 _ hdir1]
    dsimp only
    exact ⟨fun h => absurd h (by simp), fun _ => ⟨rfl, hf1⟩⟩
  · by_cases hbdot : b = "."
    · rw [hbdot, joinPath_renderTrue_dot (R ++ [n]) hT hTne,
        writeFile_isdir disk1 _ hdir1]
      dsimp only
      exact ⟨fun h => absurd h (by simp), fun _ => ⟨rfl, hf1⟩⟩
    · by_cases hbdd : b = ".."
      · rw [hbdd, joinPath_renderTrue_dotdot (R ++ [n]) hT hTne, List.dropLast_concat]
        have hrd : renderPath true R ∈ disk1.dirs := by rw [← hroot]; exact hroot1
        rw [writeFile_isdir disk1 _ hrd]
        dsimp only
        exact ⟨fun h => absurd h (by simp), fun _ => ⟨rfl, hf1⟩⟩
      · have hbok : SegOk b := ⟨hb0, hbs, hbdot, hbdd⟩
        rw [joinPath_renderTrue_clean (R ++ [n]) hT hTne b hbok,
          show (R ++ [n]) ++ [b] = R ++ [n, b] by simp]
        cases hwf : writeFile disk1 (renderPath true (R ++ [n, b])) with
        | error e =>
          dsimp only
          exact ⟨fun h => absurd h (by simp), fun _ => ⟨rfl, hf1⟩⟩
        | ok disk2 =>
          obtain ⟨hd2, hf2⟩ := writeFile_ok _ _ _ hwf
          dsimp only
          constructor
          · intro _
            refine ⟨hbok, rfl, ?_⟩
            rw [hf2, hf1]
          · intro h
            exact absurd rfl h


/-- C3 (amended): provided the artifact root is a normalized absolute
directory path that exists on disk, the owning test's name is a single
clean path segment, and no regular file occupies the test's directory
path, then for every client-supplied filename — including ones with
parent-directory segments — a successful upload writes exactly one file,
named by the base name of the supplied filename, at
`root/name/basename`, strictly inside the test's own subdirectory of the
root; and a failed upload writes nothing at all. -/
theorem C3_upload_confined_when_name_clean
    (cfg : Config) (st : ServerState) (env : Env) (R : List String)
    (n fname : String) (t : Test)
    (hR : SegsOk R) (hRne : R ≠ [])
    (hroot : cfg.uploadPath = renderPath true R)
    (hrootdir : cfg.uploadPath ∈ st.disk.dirs)
    (hn : SegOk n)
    (hfind : findTestByName st.tests n = some t)
    (hnofile : joinPath cfg.uploadPath n ∉ st.disk.files) :
    ((handle cfg st env (.upload n (some fname))).1 = .okUpload "File uploaded successfully" →
      SegOk (basename (if fname.data = [] then "upload" else fname)) ∧
      (handle cfg st env (.upload n (some fname))).2.files
        = st.files ++ [⟨st.nextFileId, env.uid, fname,
            renderPath true (R ++ [n, basename (if fname.data = [] then "upload" else fname)]),
            0, t.id⟩] ∧
      (handle cfg st env (.upload n (some fname))).2.disk.files
        = renderPath true (R ++ [n, basename (if fname.data = [] then "upload" else fname)])
            :: st.disk.files) ∧
    ((handle cfg st env (.upload n (some fname))).1 ≠ .okUpload "File uploaded successfully" →
      (handle cfg st env (.upload n (some fname))).2.files = st.files ∧
      (handle cfg st env (.upload n (some fname))).2.disk.files = st.disk.files) := by
  have htn : t.name = n := (findTestByName_some hfind).2
  have hT : SegsOk (R ++ [n]) := by
    intro s hs
    rcases List.mem_append.mp hs with h | h
    · exact hR s h
    · rw [List.mem_singleton.mp h]; exact hn
  have hTne : R ++ [n] ≠ [] := by simp
  have htd : joinPath cfg.uploadPath t.name = renderPath true (R ++ [n]) := by
    rw [htn, hroot]
    exact joinPath_renderTrue_clean R hR hRne n hn
  have htdn : joinPath cfg.uploadPath n = renderPath true (R ++ [n]) := by
    rw [hroot]
    exact joinPath_renderTrue_clean R hR hRne n hn
  have hh : handle cfg st env (.upload n (some fname)) = uploadFile cfg st env n fname := rfl
  rw [hh]
  by_cases hex : existsSync st.disk (joinPath cfg.uploadPath t.name) = true
  · have hex' := hex
    rw [htd] at hex'
    unfold existsSync at hex'
    have hdir1 : renderPath true (R ++ [n]) ∈ st.disk.dirs := by
      rcases Bool.or_eq_true_iff.mp hex' with h | h
      · exact List.elem_iff.mp h
      · exact absurd (htdn ▸ List.elem_iff.mp h) hnofile
    exact upload_write_step cfg st env R n fname t st.disk hR hRne hn hroot hfind
      (by rw [if_pos hex]) rfl hdir1 hrootdir
  · cases hmk : mkdirSyncRec st.disk (joinPath cfg.uploadPath t.name) with
    | error e =>
      rw [uploadFile_eq_mkfail cfg st env n fname t e hfind (by rw [if_neg hex, hmk])]
      exact ⟨fun h => absurd h (by simp), fun _ => ⟨rfl, rfl⟩⟩
    | ok d1 =>
      obtain ⟨hf1, hd1⟩ := mkdirSyncRec_ok _ _ _ hmk
      have hpfx : prefixPaths (isAbsPath (joinPath cfg.uploadPath t.name))
          (resolvedSegs (joinPath cfg.uploadPath t.name)) = prefixPaths true (R ++ [n]) := by
        rw [htd, isAbsPath_renderTrue, resolvedSegs_renderTrue _ hT hTne]
      have hdir1 : renderPath true (R ++ [n]) ∈ d1.dirs := by
        rw [hd1, hpfx]
        exact List.mem_append_left _ (self_mem_prefixPaths true (R ++ [n]))
      have hroot1 : cfg.uploadPath ∈ d1.dirs := by
        rw [hd1]
        exact List.mem_append_right _ hrootdir
      exact upload_write_step cfg st env R n fname t d1 hR hRne hn hroot hfind
        (by rw [if_neg hex, hmk]) hf1 hdir1 hroot1


/-- C3 counterexample to the claim as stated: a test may be registered
under the name `..` (the create endpoint accepts any string, and the
upload route's `:name` parameter is decoded from the URL), and an upload
to it — with an innocuous filename — succeeds while writing
`/srv/pwn.txt`, which is outside the artifact root `/srv/uploads`
altogether, hence outside every test subdirectory of the root: the
`path.basename` sanitization covers only the filename, not the test
name interpolated by `path.join(upload_path, test.name)`. -/
theorem C3_claim_counterexample :
    (handle ⟨"/srv/uploads", none⟩
        ⟨[], [], ⟨["/", "/srv", "/srv/uploads"], []⟩, 1, 1⟩
        ⟨0, "u-1", none, true⟩ (.newTest ".." "{}")).2
      = ⟨[⟨1, "..", 0, none, none, "{}"⟩], [], ⟨["/", "/srv", "/srv/uploads"], []⟩, 2, 1⟩ ∧
    (handle ⟨"/srv/uploads", none⟩
        ⟨[⟨1, "..", 0, none, none, "{}"⟩], [], ⟨["/", "/srv", "/srv/uploads"], []⟩, 2, 1⟩
        ⟨5, "u-1", none, true⟩ (.upload ".." (some "pwn.txt"))).1
      = .okUpload "File uploaded successfully" ∧
    (handle ⟨"/srv/uploads", none⟩
        ⟨[⟨1, "..", 0, none, none, "{}"⟩], [], ⟨["/", "/srv", "/srv/uploads"], []⟩, 2, 1⟩
        ⟨5, "u-1", none, true⟩ (.upload ".." (some "pwn.txt"))).2.disk.files
      = ["/srv/pwn.txt"] ∧
    (handle ⟨"/srv/uploads", none⟩
        ⟨[⟨1, "..", 0, none, none, "{}"⟩], [], ⟨["/", "/srv", "/srv/uploads"], []⟩, 2, 1⟩
        ⟨5, "u-1", none, true⟩ (.upload ".." (some "pwn.txt"))).2.files
      = [⟨1, "u-1", "pwn.txt", "/srv/pwn.txt", 0, 1⟩] ∧
    resolvedSegs "/srv/pwn.txt" = ["srv", "pwn.txt"] ∧
    resolvedSegs "/srv/uploads" = ["srv", "uploads"] ∧
    (["srv", "uploads"].isPrefixOf ["srv", "pwn.txt"]) = false :=
  ⟨by decide, by decide, by decide, by decide, by decide, by decide, by decide⟩

/-- Witness for the amended C3 theorem: under a clean test name `t1`, an
upload of `../../secret.txt` is confined to `/srv/uploads/t1/secret.txt`. -/
theorem C3_upload_confined_when_name_clean_witness :
    (SegsOk ["srv", "uploads"] ∧ SegOk "t1" ∧
      ("/srv/uploads" : String) = renderPath true ["srv", "uploads"]) ∧
    (handle ⟨"/srv/uploads", none⟩
        ⟨[⟨1, "t1", 0, none, none, "{}"⟩], [], ⟨["/", "/srv", "/srv/uploads"], []⟩, 2, 1⟩
        ⟨5, "u-1", none, true⟩ (.upload "t1" (some "../../secret.txt"))).2.disk.files
      = renderPath true (["srv", "uploads"]
          ++ ["t1", basename (if ("../../secret.txt" : String).data = []
                then "upload" else "../../secret.txt")])
          :: (⟨["/", "/srv", "/srv/uploads"], []⟩ : Disk).files :=
  ⟨⟨by decide, by decide, by decide⟩,
   ((C3_upload_confined_when_name_clean ⟨"/srv/uploads", none⟩
      ⟨[⟨1, "t1", 0, none, none, "{}"⟩], [], ⟨["/", "/srv", "/srv/uploads"], []⟩, 2, 1⟩
      ⟨5, "u-1", none, true⟩ ["srv", "uploads"] "t1" "../../secret.txt"
      ⟨1, "t1", 0, none, none, "{}"⟩
      (by decide) (by decide) (by decide) (by decide) (by decide) (by decide)
      (by decide)).1 (by decide)).2.2⟩

end TT
